import Mathlib

set_option linter.unnecessarySeqFocus false

/-!
Verification development for the `link-list` repository
(`src/app/page.tsx`, a single React component).

The component keeps a structured state (a title string and an ordered
list of link records), a textual JSON mirror of both, a JSON-editor
open flag, a read-only flag and an error indicator.  This file embeds
the data model, the platform JSON primitives (`JSON.parse` and
`JSON.stringify(_, null, 2)`, modelled faithfully on JSON values whose
strings are sequences of Unicode scalar values), and every state
handler of the component, and proves the specification claims about
them.
-/

/-! ## JSON values

The model of a JavaScript JSON value.  Numbers are kept as their
lexical token (the exact character sequence of the numeral), which is
faithful for parsing; no claim ever serializes a number, so the
JavaScript number-to-string normalisation never matters here.
Object fields are kept in insertion order, as JavaScript does for
string keys produced by `JSON.parse`.
-/
inductive Json where
  | null : Json
  | bool : Bool → Json
  | num : String → Json
  | str : String → Json
  | arr : List Json → Json
  | obj : List (String × Json) → Json

/-- Field lookup on an object (`parsed.items`, `parsed.title`):
first occurrence; `JSON.parse` never produces duplicate keys. -/
def Json.getField (j : Json) (k : String) : Option Json :=
  match j with
  | .obj kvs => (kvs.find? (fun kv => kv.1 == k)).map (fun kv => kv.2)
  | _ => none

/-- Outcome of the `JSON.parse` model: success, a syntax error
(JavaScript would throw), or input outside the model (the only such
inputs are string literals whose escape sequences denote lone UTF-16
surrogates, which a scalar-value string cannot represent). -/
inductive PR (α : Type) where
  | ok : α → PR α
  | err : PR α
  | unmod : PR α

def PR.map (f : α → β) : PR α → PR β
  | .ok a => .ok (f a)
  | .err => .err
  | .unmod => .unmod

/-! ## The lexical layer of `JSON.parse` -/

/-- JSON whitespace (the four characters `JSON.parse` skips). -/
def isJsonWs (c : Char) : Bool :=
  c = ' ' || c = '\t' || c = '\n' || c = '\r'

def skipWs (cs : List Char) : List Char := cs.dropWhile isJsonWs

/-- Value of one hexadecimal digit, accepting both cases. -/
def hexVal (c : Char) : Option Nat :=
  if '0' ≤ c ∧ c ≤ '9' then some (c.toNat - 48)
  else if 'a' ≤ c ∧ c ≤ 'f' then some (c.toNat - 87)
  else if 'A' ≤ c ∧ c ≤ 'F' then some (c.toNat - 55)
  else none

/-- Four hexadecimal digits, as in a `\uXXXX` escape. -/
def hex4 : List Char → Option (Nat × List Char)
  | a :: b :: c :: d :: rest =>
    match hexVal a, hexVal b, hexVal c, hexVal d with
    | some x, some y, some z, some w => some (((x * 16 + y) * 16 + z) * 16 + w, rest)
    | _, _, _, _ => none
  | _ => none

/-- Decoding of the single-character string escapes of JSON. -/
def escDecode (c : Char) : Option Char :=
  if c = '"' then some '"'
  else if c = '\\' then some '\\'
  else if c = '/' then some '/'
  else if c = 'b' then some '\x08'
  else if c = 'f' then some '\x0c'
  else if c = 'n' then some '\n'
  else if c = 'r' then some '\r'
  else if c = 't' then some '\t'
  else none

/-- Characters that can occur inside a JSON numeral token. -/
def isNumChar (c : Char) : Bool :=
  c.isDigit || c = '-' || c = '+' || c = '.' || c = 'e' || c = 'E'

def chompDigits : List Char → Option (List Char)
  | c :: rest => if c.isDigit then some (rest.dropWhile Char.isDigit) else none
  | [] => none

/-- Integer part of a JSON number after the optional sign: `0`, or a
nonzero digit followed by digits (JSON forbids leading zeros). -/
def chompIntPart : List Char → Option (List Char)
  | '0' :: rest => some rest
  | c :: rest => if c.isDigit then some (rest.dropWhile Char.isDigit) else none
  | [] => none

def chompFrac : List Char → Option (List Char)
  | '.' :: rest => chompDigits rest
  | cs => some cs

def chompExp : List Char → Option (List Char)
  | c :: rest =>
    if c = 'e' ∨ c = 'E' then
      match rest with
      | s :: r2 => if s = '+' ∨ s = '-' then chompDigits r2 else chompDigits rest
      | [] => none
    else some (c :: rest)
  | [] => some []

/-- Whether a token is a valid JSON numeral
(`-? (0 | [1-9][0-9]*) (. [0-9]+)? ([eE][+-]?[0-9]+)?`). -/
def validNumLex (cs : List Char) : Bool :=
  let body := match cs with
    | '-' :: r => r
    | _ => cs
  match chompIntPart body with
  | none => false
  | some r =>
    match chompFrac r with
    | none => false
    | some r2 =>
      match chompExp r2 with
      | none => false
      | some r3 => r3.isEmpty

/-- Body of a JSON string literal, after the opening quote.  Returns
the decoded characters and the input after the closing quote.  The
fuel argument only serves termination: any fuel exceeding the number
of decoded characters gives the real answer.  A `\uXXXX` escape
denoting half of a surrogate pair without its mate is outside the
scalar-value model and yields `PR.unmod`. -/
def parseStrBody (fuel : Nat) (cs : List Char) : PR (List Char × List Char) :=
  match fuel with
  | 0 => .err
  | fuel + 1 =>
    match cs with
    | [] => .err
    | c :: rest =>
      if c = '"' then .ok ([], rest)
      else if c = '\\' then
        match rest with
        | [] => .err
        | e :: r2 =>
          if e = 'u' then
            match hex4 r2 with
            | some (n, r3) =>
              if n < 0xD800 ∨ 0xDFFF < n then
                (parseStrBody fuel r3).map (fun p => (Char.ofNat n :: p.1, p.2))
              else if n ≤ 0xDBFF then
                match r3 with
                | '\\' :: 'u' :: r4 =>
                  match hex4 r4 with
                  | some (m, r5) =>
                    if 0xDC00 ≤ m ∧ m ≤ 0xDFFF then
                      (parseStrBody fuel r5).map
                        (fun p => (Char.ofNat (0x10000 + (n - 0xD800) * 0x400 + (m - 0xDC00)) :: p.1, p.2))
                    else .unmod
                  | none => .err
                | _ => .unmod
              else .unmod
            | none => .err
          else
            match escDecode e with
            | some c2 => (parseStrBody fuel r2).map (fun p => (c2 :: p.1, p.2))
            | none => .err
      else if c.toNat < 0x20 then .err
      else (parseStrBody fuel rest).map (fun p => (c :: p.1, p.2))

/-- How `JSON.parse` merges one object member read before `rest`:
a repeated key keeps its first position but takes the later value. -/
def insertMember (k : String) (v : Json) (rest : List (String × Json)) :
    List (String × Json) :=
  match rest.find? (fun kv => kv.1 == k) with
  | some kv => (k, kv.2) :: rest.filter (fun kv => kv.1 ≠ k)
  | none => (k, v) :: rest

mutual

/-- One JSON value, leading whitespace allowed; returns the remaining
input.  Fuel only serves termination. -/
def parseV (fuel : Nat) (cs : List Char) : PR (Json × List Char) :=
  match fuel with
  | 0 => .err
  | fuel + 1 =>
    match skipWs cs with
    | [] => .err
    | c :: rest =>
      if c = 'n' then
        match rest with
        | 'u' :: 'l' :: 'l' :: r => .ok (.null, r)
        | _ => .err
      else if c = 't' then
        match rest with
        | 'r' :: 'u' :: 'e' :: r => .ok (.bool true, r)
        | _ => .err
      else if c = 'f' then
        match rest with
        | 'a' :: 'l' :: 's' :: 'e' :: r => .ok (.bool false, r)
        | _ => .err
      else if c = '"' then
        (parseStrBody (rest.length + 1) rest).map (fun p => (.str ⟨p.1⟩, p.2))
      else if c = '[' then
        let cs2 := skipWs rest
        if cs2.head? = some ']' then .ok (.arr [], cs2.tail)
        else (parseElems fuel cs2).map (fun p => (.arr p.1, p.2))
      else if c = '\x7b' then
        let cs2 := skipWs rest
        if cs2.head? = some '\x7d' then .ok (.obj [], cs2.tail)
        else (parseMembers fuel cs2).map (fun p => (.obj p.1, p.2))
      else if c = '-' ∨ c.isDigit then
        let tok := (c :: rest).takeWhile isNumChar
        let r := (c :: rest).dropWhile isNumChar
        if validNumLex tok then .ok (.num ⟨tok⟩, r) else .err
      else .err

/-- Elements of a nonempty array, up to and including the closing
bracket. -/
def parseElems (fuel : Nat) (cs : List Char) : PR (List Json × List Char) :=
  match fuel with
  | 0 => .err
  | fuel + 1 =>
    match parseV fuel cs with
    | .ok (j, r) =>
      match skipWs r with
      | ',' :: r2 => (parseElems fuel r2).map (fun p => (j :: p.1, p.2))
      | ']' :: r2 => .ok ([j], r2)
      | _ => .err
    | .err => .err
    | .unmod => .unmod

/-- Members of a nonempty object, up to and including the closing
brace. -/
def parseMembers (fuel : Nat) (cs : List Char) : PR (List (String × Json) × List Char) :=
  match fuel with
  | 0 => .err
  | fuel + 1 =>
    match skipWs cs with
    | '"' :: cs2 =>
      match parseStrBody (cs2.length + 1) cs2 with
      | .ok (kChars, r) =>
        match skipWs r with
        | ':' :: r2 =>
          match parseV fuel r2 with
          | .ok (v, r3) =>
            match skipWs r3 with
            | ',' :: r4 =>
              (parseMembers fuel r4).map (fun p => (insertMember ⟨kChars⟩ v p.1, p.2))
            | '\x7d' :: r4 => .ok ([(⟨kChars⟩, v)], r4)
            | _ => .err
          | .err => .err
          | .unmod => .unmod
        | _ => .err
      | .err => .err
      | .unmod => .unmod
    | _ => .err

end

/-- The model of `JSON.parse`: one JSON value followed only by
whitespace.  The fuel bound `2 * length + 4` exceeds the recursion
depth of any parse of the input, so it never cuts a real run short. -/
def Json.parse (s : String) : PR Json :=
  match parseV (2 * s.length + 4) s.data with
  | .ok (j, rest) => if (skipWs rest).isEmpty then .ok j else .err
  | .err => .err
  | .unmod => .unmod

/-! ## The model of `JSON.stringify(_, null, 2)` -/

/-- Lowercase hexadecimal digit, as `JSON.stringify` emits in `\uXXXX`
escapes. -/
def hexDigit (n : Nat) : Char :=
  if n < 10 then Char.ofNat (48 + n) else Char.ofNat (87 + n)

/-- How `JSON.stringify` renders one character of a string: quote and
backslash and the five named control characters get two-character
escapes, the remaining control characters get `\u00xx`, everything
else is emitted verbatim. -/
def escChar (c : Char) : List Char :=
  if c = '"' then ['\\', '"']
  else if c = '\\' then ['\\', '\\']
  else if c = '\x08' then ['\\', 'b']
  else if c = '\t' then ['\\', 't']
  else if c = '\n' then ['\\', 'n']
  else if c = '\x0c' then ['\\', 'f']
  else if c = '\r' then ['\\', 'r']
  else if c.toNat < 0x20 then
    ['\\', 'u', '0', '0', hexDigit (c.toNat / 16), hexDigit (c.toNat % 16)]
  else [c]

def escBody (s : String) : List Char := (s.data.map escChar).flatten

/-- A rendered JSON string literal, quotes included. -/
def encStr (s : String) : List Char := '"' :: (escBody s ++ ['"'])

def indentSp (n : Nat) : List Char := List.replicate n ' '

mutual

/-- Pretty rendering with a two-space indent, exactly as
`JSON.stringify(v, null, 2)` lays a value out; `ind` is the column of
the value's closing bracket. -/
def render (ind : Nat) (j : Json) : List Char :=
  match j with
  | .str s => encStr s
  | .null => ['n', 'u', 'l', 'l']
  | .num lex => lex.data
  | .bool false => ['f', 'a', 'l', 's', 'e']
  | .bool true => ['t', 'r', 'u', 'e']
  | .arr [] => ['[', ']']
  | .arr (x :: xs) =>
    '[' :: '\n' :: (renderElems (ind + 2) x xs ++ '\n' :: (indentSp ind ++ [']']))
  | .obj [] => ['\x7b', '\x7d']
  | .obj ((k, v) :: kvs) =>
    '\x7b' :: '\n' :: (renderMembers (ind + 2) k v kvs ++ '\n' :: (indentSp ind ++ ['\x7d']))
termination_by sizeOf j
decreasing_by all_goals (simp_wf <;> omega)

def renderElems (ind : Nat) (x : Json) (xs : List Json) : List Char :=
  match xs with
  | [] => indentSp ind ++ render ind x
  | y :: ys =>
    indentSp ind ++ (render ind x ++ ',' :: '\n' :: renderElems ind y ys)
termination_by 1 + sizeOf x + sizeOf xs
decreasing_by all_goals (simp_wf <;> omega)

def renderMembers (ind : Nat) (k : String) (v : Json) (kvs : List (String × Json)) :
    List Char :=
  match kvs with
  | [] => indentSp ind ++ (encStr k ++ ':' :: ' ' :: render ind v)
  | (k2, v2) :: rest =>
    indentSp ind ++ (encStr k ++ ':' :: ' ' :: (render ind v ++ ',' :: '\n' :: renderMembers ind k2 v2 rest))
termination_by 1 + sizeOf v + sizeOf kvs
decreasing_by all_goals (simp_wf <;> omega)

end

/-- The model of `JSON.stringify(v, null, 2)` on a whole value. -/
def Json.stringify (j : Json) : String := ⟨render 0 j⟩

/-! ## The component's data model (`src/app/page.tsx`) -/

/-- The `LinkItem` record type of `page.tsx`: a stable identifier, a
display label and a URL. -/
structure LinkItem where
  id : String
  label : String
  url : String
deriving Repr, DecidableEq

/-- The field argument of `updateLink`, typed `'label' | 'url'` in the
source. -/
inductive LinkField where
  | label : LinkField
  | url : LinkField
deriving Repr, DecidableEq

/-- The state hooks of the `App` component: `title`, `links`,
`isJsonOpen`, `isReadOnly`, `jsonString`, `jsonError`. -/
structure AppState where
  title : String
  links : List LinkItem
  isJsonOpen : Bool
  isReadOnly : Bool
  jsonString : String
  jsonError : Option String
deriving Repr, DecidableEq

/-- Serialization of one link record, fields in the declaration and
creation order `id`, `label`, `url` that `JSON.stringify` follows. -/
def encodeLinkItem (l : LinkItem) : Json :=
  .obj [("id", .str l.id), ("label", .str l.label), ("url", .str l.url)]

/-- The object `{ title: title, items: links }` built by the sync
effect and by `downloadJson`. -/
def dataJson (title : String) (links : List LinkItem) : Json :=
  .obj [("title", .str title), ("items", .arr (links.map encodeLinkItem))]

/-- The text `JSON.stringify({ title, items }, null, 2)`. -/
def stringifyData (title : String) (links : List LinkItem) : String :=
  (dataJson title links).stringify

/-- The sync `useEffect` of `App` (deps `[links, title, isJsonOpen]`):
when the JSON editor panel is closed it rewrites `jsonString` from the
structured state; when the panel is open it leaves it alone.  The
handlers below apply it exactly where the corresponding `setLinks` or
`setTitle` call makes the effect re-run. -/
def syncJson (s : AppState) : AppState :=
  if s.isJsonOpen then s
  else { s with jsonString := stringifyData s.title s.links }

/-- The `addLink` handler.  The source draws the fresh identifier from
`crypto.randomUUID()`; the model takes it as the argument `newId`. -/
def addLink (s : AppState) (newId : String) : AppState :=
  syncJson { s with links := s.links ++ [{ id := newId, label := "", url := "" }] }

/-- Writing one field of a link record, the object spread
`{ ...link, [field]: value }` of the source. -/
def setLinkField (l : LinkItem) (field : LinkField) (value : String) : LinkItem :=
  match field with
  | .label => { l with label := value }
  | .url => { l with url := value }

/-- The `updateLink` handler. -/
def updateLink (s : AppState) (id : String) (field : LinkField) (value : String) :
    AppState :=
  syncJson { s with
    links := s.links.map (fun l => if l.id = id then setLinkField l field value else l) }

/-- The `removeLink` handler. -/
def removeLink (s : AppState) (id : String) : AppState :=
  syncJson { s with links := s.links.filter (fun l => l.id ≠ id) }

/-- The `findIndex` of JavaScript: the index of the first match, `-1`
when there is none. -/
def jsFindIndex (p : α → Bool) (l : List α) : Int :=
  match l.findIdx? p with
  | some n => (n : Int)
  | none => -1

/-- The `arrayMove` helper of `@dnd-kit/sortable`
(`newArray.splice(to < 0 ? newArray.length + to : to, 0,
newArray.splice(from, 1)[0])`): remove the element at `from`, then
insert it at `to` (a negative `to` counts from the end, and an
overshooting `to` appends).  When `from` is out of range the
JavaScript original would insert `undefined`, which has no typed
counterpart; the model returns the list unchanged there, and that
branch is unreachable from `handleDragEnd` because both indices come
from `findIndex` over the rendered items. -/
def jsArrayMove (l : List α) (i j : Int) : List α :=
  if h : 0 ≤ i ∧ i.toNat < l.length then
    let x := l.get ⟨i.toNat, h.2⟩
    let l2 := l.eraseIdx i.toNat
    let k := if j < 0 then ((l2.length : Int) + j).toNat else min j.toNat l2.length
    l2.insertIdx k x
  else l

/-- The `handleDragEnd` handler.  A `DragEndEvent` carries the dragged
id `activeId` and the drop target `over` (absent when the drag ended
over nothing); `setLinks` runs only when `over` exists and differs
from the dragged id, and only then does the sync effect re-run. -/
def handleDragEnd (s : AppState) (activeId : String) (over : Option String) :
    AppState :=
  match over with
  | some overId =>
    if activeId ≠ overId then
      syncJson { s with
        links := jsArrayMove s.links
          (jsFindIndex (fun item => item.id == activeId) s.links)
          (jsFindIndex (fun item => item.id == overId) s.links) }
    else s
  | none => s

/-- Truthiness of a JSON value in JavaScript (`if (parsed.title)`,
`parsed.title || "Untitled List"`): `null`, `false`, the empty string
and numbers of value zero are falsy, every array and object truthy. -/
def jsTruthy (j : Json) : Bool :=
  match j with
  | .null => false
  | .bool b => b
  | .str s => s ≠ ""
  | .num lex =>
    let mantissa := (lex.data.filter (fun c => c ≠ '-' ∧ c ≠ '.')).takeWhile
      (fun c => c ≠ 'e' ∧ c ≠ 'E')
    decide (∃ c ∈ mantissa, c ≠ '0')
  | .arr _ => true
  | .obj _ => true

/-- The string coercion JavaScript applies when a JSON value lands in
a string state slot (`setTitle(parsed.title)` with a truthy non-string
title).  The string case is exact; the other cases model `String(v)`
(a numeral is kept as its lexeme rather than re-rendered from the
numeric value, a harmless approximation since no claim inspects such
a title). -/
def jsToStr (j : Json) : String :=
  match j with
  | .str s => s
  | .num lex => lex
  | .bool true => "true"
  | .bool false => "false"
  | .null => "null"
  | .arr _ => ""
  | .obj _ => "[object Object]"

/-- The untyped `setLinks(parsed.items)` stores raw parsed objects
into the `LinkItem[]` state.  The typed model projects each element
onto the declared fields, reading a missing or non-string field as
`""`; on well-formed link objects this is exact. -/
def jsToLinkItem (j : Json) : LinkItem :=
  let getS := fun (k : String) =>
    match j.getField k with
    | some (.str s) => s
    | _ => ""
  { id := getS "id", label := getS "label", url := getS "url" }

/-- Shape accepted by both JSON intake paths: a bare array (legacy
format), or an object whose `items` field is an array.  `typeof
parsed === 'object'` together with the preceding truthiness guard and
the `Array.isArray(parsed)` branch leaves exactly the object case. -/
def jsonShapeOk (j : Json) : Bool :=
  match j with
  | .arr _ => true
  | .obj _ =>
    match j.getField "items" with
    | some (.arr _) => true
    | _ => false
  | _ => false

/-- The payload both intake paths store through `setLinks` when the
shape is accepted: the array itself, or the object's `items` array. -/
def jsonItems (j : Json) : List Json :=
  match j with
  | .arr xs => xs
  | _ =>
    match j.getField "items" with
    | some (.arr xs) => xs
    | _ => []

/-- The `handleJsonChange` handler (textarea `onChange`).  It returns
`none` only when the typed text falls outside the JSON model (lone
surrogate escapes); otherwise it performs exactly the source's
updates: always `setJsonString(newValue)`, then on a successful parse
of an accepted shape `setLinks` (and `setTitle` when the parsed title
is truthy) followed by the sync effect, and on failure only the error
indicator.  In read-only mode it returns at once. -/
def handleJsonChange (s : AppState) (newValue : String) : Option AppState :=
  if s.isReadOnly then some s
  else
    let s1 := { s with jsonString := newValue }
    match Json.parse newValue with
    | .ok (.arr items) =>
      some (syncJson { s1 with links := items.map jsToLinkItem, jsonError := none })
    | .ok j =>
      match j with
      | .obj _ =>
        match j.getField "items" with
        | some (.arr items) =>
          let title :=
            match j.getField "title" with
            | some t => if jsTruthy t then jsToStr t else s.title
            | none => s.title
          some (syncJson { s1 with
            links := items.map jsToLinkItem, title := title, jsonError := none })
        | _ =>
          some { s1 with
            jsonError := some "Invalid format: Expected array or \x7b title, items: [] \x7d" }
      | _ =>
        some { s1 with
          jsonError := some "Invalid format: Expected array or \x7b title, items: [] \x7d" }
    | .err => some { s1 with jsonError := some "Invalid JSON syntax" }
    | .unmod => none

/-- The filename `downloadJson` attaches:
`${title.replace(/[^a-z0-9]/gi, '_').toLowerCase() || 'links'}.json`.
The per-character regex replacement and the subsequent lowercasing are
modelled on scalar values (an astral character, two UTF-16 units in
JavaScript, counts once here; after the replacement every character is
ASCII, so ASCII lowercasing is exact). -/
def titleSlug (title : String) : String :=
  ⟨(title.data.map (fun c =>
    if ('a' ≤ c ∧ c ≤ 'z') ∨ ('A' ≤ c ∧ c ≤ 'Z') ∨ ('0' ≤ c ∧ c ≤ '9')
    then c else '_')).map Char.toLower⟩

def downloadFileName (title : String) : String :=
  (if titleSlug title = "" then "links" else titleSlug title) ++ ".json"

/-- The `downloadJson` handler, reduced to its data: the filename and
the serialized text (the source wraps the text in a
`data:text/json;charset=utf-8,` URI with `encodeURIComponent` and
clicks a transient anchor, pure transport that the model omits). -/
def downloadJson (s : AppState) : String × String :=
  (downloadFileName s.title, stringifyData s.title s.links)

/-- The `uploadJson` handler applied to the text the `FileReader`
delivered.  Returns the next state and the alert message, if any
(`alert` fires for an unaccepted shape or a parse failure, and then no
state changes); `none` only for text outside the JSON model.  On a
bare array the title becomes `"Imported List"`; on an object with an
`items` array it becomes the parsed title when truthy and
`"Untitled List"` otherwise; both intake branches run `setLinks`, so
the sync effect re-runs. -/
def uploadJson (s : AppState) (text : String) : Option (AppState × Option String) :=
  match Json.parse text with
  | .ok (.arr items) =>
    some (syncJson { s with links := items.map jsToLinkItem, title := "Imported List" }, none)
  | .ok j =>
    match j with
    | .obj _ =>
      match j.getField "items" with
      | some (.arr items) =>
        let title :=
          match j.getField "title" with
          | some t => if jsTruthy t then jsToStr t else "Untitled List"
          | none => "Untitled List"
        some (syncJson { s with links := items.map jsToLinkItem, title := title }, none)
      | _ => some (s, some "File is not a valid LinkList file.")
    | _ => some (s, some "File is not a valid LinkList file.")
  | .err => some (s, some "Error parsing JSON file.")
  | .unmod => none

/-! ## Rendering facts used by the read-only claim

The conditional rendering of `page.tsx`, reduced to the booleans the
claim is about. -/

/-- `useSortable({ id: link.id, disabled: isReadOnly })` in
`SortableLinkRow`. -/
def sortableDisabled (isReadOnly : Bool) : Bool := isReadOnly

/-- `readOnly={isReadOnly}` on the JSON textarea. -/
def textareaReadOnly (s : AppState) : Bool := s.isReadOnly

/-- The drag handle is rendered only when `!isReadOnly`. -/
def dragHandleShown (s : AppState) : Bool := !s.isReadOnly

/-- The remove button of a row is rendered only when `!isReadOnly`. -/
def removeButtonShown (s : AppState) : Bool := !s.isReadOnly

/-- The add-link button is rendered only when `!isReadOnly`. -/
def addButtonShown (s : AppState) : Bool := !s.isReadOnly

/-- The label and URL cells render editable inputs only when
`!isReadOnly` (otherwise static text). -/
def fieldInputsShown (s : AppState) : Bool := !s.isReadOnly

/-! ## Auxiliary notions for the parse and render round trip -/

mutual

/-- JSON values in the image of the component's serialization: no
numbers (the data is titles and string fields) and no duplicate object
keys. -/
def goodJson : Json → Prop
  | .null => True
  | .bool _ => True
  | .num _ => False
  | .str _ => True
  | .arr xs => goodList xs
  | .obj kvs => goodKvs kvs

def goodList : List Json → Prop
  | [] => True
  | x :: xs => goodJson x ∧ goodList xs

def goodKvs : List (String × Json) → Prop
  | [] => True
  | (k, v) :: kvs => goodJson v ∧ (∀ kv2 ∈ kvs, kv2.1 ≠ k) ∧ goodKvs kvs

end

mutual

/-- Fuel lower bound under which `parseV` finishes a rendered value. -/
def jweight : Json → Nat
  | .null => 1
  | .bool _ => 1
  | .num _ => 1
  | .str _ => 1
  | .arr xs => 1 + eweight xs
  | .obj kvs => 1 + mweight kvs

def eweight : List Json → Nat
  | [] => 0
  | x :: xs => 1 + jweight x + eweight xs

def mweight : List (String × Json) → Nat
  | [] => 0
  | kv :: kvs => 1 + jweight kv.2 + mweight kvs

end

/-- The input that follows one rendered array element: either the
closing bracket line, or a comma and the remaining elements. -/
def elemsTail (ind : Nat) (xs : List Json) (ws rest : List Char) : List Char :=
  match xs with
  | [] => '\n' :: (ws ++ ']' :: rest)
  | y :: ys => ',' :: '\n' :: (renderElems ind y ys ++ '\n' :: (ws ++ ']' :: rest))

/-- The input that follows one rendered object member. -/
def membersTail (ind : Nat) (kvs : List (String × Json)) (ws rest : List Char) : List Char :=
  match kvs with
  | [] => '\n' :: (ws ++ '\x7d' :: rest)
  | (k2, v2) :: rest2 =>
    ',' :: '\n' :: (renderMembers ind k2 v2 rest2 ++ '\n' :: (ws ++ '\x7d' :: rest))

/-! ## Basic facts about the sync effect -/

theorem syncJson_title (s : AppState) : (syncJson s).title = s.title := by
  unfold syncJson; split <;> rfl

theorem syncJson_links (s : AppState) : (syncJson s).links = s.links := by
  unfold syncJson; split <;> rfl

theorem syncJson_isJsonOpen (s : AppState) : (syncJson s).isJsonOpen = s.isJsonOpen := by
  unfold syncJson; split <;> rfl

theorem syncJson_jsonError (s : AppState) : (syncJson s).jsonError = s.jsonError := by
  unfold syncJson; split <;> rfl

theorem syncJson_jsonString_closed (s : AppState) (h : s.isJsonOpen = false) :
    (syncJson s).jsonString = stringifyData s.title s.links := by
  unfold syncJson; rw [h]; simp

theorem syncJson_open (s : AppState) (h : s.isJsonOpen = true) : syncJson s = s := by
  unfold syncJson; rw [h]; simp

theorem syncJson_jsonString_of_open (s : AppState) (h : s.isJsonOpen = true) :
    (syncJson s).jsonString = s.jsonString := by
  rw [syncJson_open s h]

/-- The mirror property for any state the sync effect just ran on. -/
theorem syncJson_mirror (s : AppState) (h : s.isJsonOpen = false) :
    (syncJson s).jsonString = stringifyData (syncJson s).title (syncJson s).links := by
  rw [syncJson_title, syncJson_links, syncJson_jsonString_closed s h]

/-! ## Concrete states used by the witnesses -/

/-- The initial state of the component (`useState` initialisers). -/
def initialState : AppState :=
  { title := "My Useful Links"
    links := [{ id := "1", label := "Google", url := "https://google.com" },
              { id := "2", label := "GitHub", url := "https://github.com" }]
    isJsonOpen := false
    isReadOnly := false
    jsonString := ""
    jsonError := none }

/-- The initial state with the JSON editor panel open. -/
def openState : AppState := { initialState with isJsonOpen := true, jsonString := "typed" }

/-- The initial state in read-only mode. -/
def readOnlyState : AppState := { initialState with isReadOnly := true }

/-! ## Claim C1 -/

/-- C1: whenever the JSON editor panel is closed, every
structured-state mutation (add, update, remove, reorder, upload)
leaves `jsonString` equal to
`JSON.stringify({title, items}, null, 2)` of the resulting structured
state, because every such mutation re-runs the sync effect. -/
theorem C1_json_mirror_restored
    (s : AppState) (hClosed : s.isJsonOpen = false)
    (newId id value aid oid text : String) (field : LinkField) :
    (addLink s newId).jsonString
      = stringifyData (addLink s newId).title (addLink s newId).links
    ∧ (updateLink s id field value).jsonString
      = stringifyData (updateLink s id field value).title (updateLink s id field value).links
    ∧ (removeLink s id).jsonString
      = stringifyData (removeLink s id).title (removeLink s id).links
    ∧ (aid ≠ oid →
        (handleDragEnd s aid (some oid)).jsonString
          = stringifyData (handleDragEnd s aid (some oid)).title
              (handleDragEnd s aid (some oid)).links)
    ∧ (∀ s', uploadJson s text = some (s', none) →
        s'.jsonString = stringifyData s'.title s'.links) := by
  refine ⟨syncJson_mirror _ hClosed, syncJson_mirror _ hClosed,
    syncJson_mirror _ hClosed, ?_, ?_⟩
  · intro hne
    unfold handleDragEnd
    simp only [hne, ite_true, ne_eq, not_false_eq_true]
    exact syncJson_mirror _ hClosed
  · intro s' h
    unfold uploadJson at h
    split at h
    · simp only [Option.some.injEq, Prod.mk.injEq] at h
      rw [← h.1]
      exact syncJson_mirror _ hClosed
    · split at h
      · split at h
        · simp only [Option.some.injEq, Prod.mk.injEq] at h
          rw [← h.1]
          exact syncJson_mirror _ hClosed
        · simp at h
      · simp at h
    · simp at h
    · exact absurd h (by simp)

/-- Witness for C1 at the component's initial state. -/
theorem C1_witness :
    (addLink initialState "3").jsonString
      = stringifyData (addLink initialState "3").title (addLink initialState "3").links :=
  (C1_json_mirror_restored initialState rfl "3" "1" "x" "1" "2" "[]" .label).1

/-! ## Claim C6 -/

/-- C6: in read-only mode every mutation entry point is disabled:
`handleJsonChange` returns with the state unchanged for every input,
the JSON textarea is rendered `readOnly`, each row's sortable is
created with `disabled` set, and the drag handle, remove button, add
button and field inputs are not rendered at all. -/
theorem C6_readonly_disables_mutation
    (s : AppState) (text : String) (hRO : s.isReadOnly = true) :
    handleJsonChange s text = some s
    ∧ textareaReadOnly s = true
    ∧ sortableDisabled s.isReadOnly = true
    ∧ dragHandleShown s = false
    ∧ removeButtonShown s = false
    ∧ addButtonShown s = false
    ∧ fieldInputsShown s = false := by
  refine ⟨?_, hRO, hRO, ?_, ?_, ?_, ?_⟩ <;>
    simp [handleJsonChange, textareaReadOnly, dragHandleShown, removeButtonShown,
      addButtonShown, fieldInputsShown, hRO]

/-- Witness for C6 in the locked state. -/
theorem C6_witness :
    handleJsonChange readOnlyState "[]" = some readOnlyState :=
  (C6_readonly_disables_mutation readOnlyState "[]" rfl).1

/-! ## Claim C7 -/

/-- C7: while the JSON editor panel is open, no structured-state
mutation rewrites the JSON text buffer (the sync effect is a no-op),
and `jsonString` changes only through the user's own typing in
`handleJsonChange`, which stores exactly the typed text. -/
theorem C7_open_panel_keeps_buffer
    (s : AppState) (hOpen : s.isJsonOpen = true)
    (newId id value aid text : String) (field : LinkField) (over : Option String) :
    (addLink s newId).jsonString = s.jsonString
    ∧ (updateLink s id field value).jsonString = s.jsonString
    ∧ (removeLink s id).jsonString = s.jsonString
    ∧ (handleDragEnd s aid over).jsonString = s.jsonString
    ∧ (∀ s' a, uploadJson s text = some (s', a) → s'.jsonString = s.jsonString)
    ∧ (s.isReadOnly = false → ∀ s', handleJsonChange s text = some s' →
        s'.jsonString = text) := by
  refine ⟨?_, ?_, ?_, ?_, ?_, ?_⟩
  · exact syncJson_jsonString_of_open _ hOpen
  · exact syncJson_jsonString_of_open _ hOpen
  · exact syncJson_jsonString_of_open _ hOpen
  · unfold handleDragEnd
    match over with
    | none => rfl
    | some o =>
      by_cases h : aid = o
      · simp [h]
      · simp only [h, ite_true, ne_eq, not_false_eq_true]
        exact syncJson_jsonString_of_open _ hOpen
  · intro s' a h
    unfold uploadJson at h
    split at h
    · simp only [Option.some.injEq, Prod.mk.injEq] at h
      rw [← h.1]
      exact syncJson_jsonString_of_open _ hOpen
    · split at h
      · split at h
        · simp only [Option.some.injEq, Prod.mk.injEq] at h
          rw [← h.1]
          exact syncJson_jsonString_of_open _ hOpen
        · simp only [Option.some.injEq, Prod.mk.injEq] at h
          rw [← h.1]
      · simp only [Option.some.injEq, Prod.mk.injEq] at h
        rw [← h.1]
    · simp only [Option.some.injEq, Prod.mk.injEq] at h
      rw [← h.1]
    · exact absurd h (by simp)
  · intro hRO s' h
    unfold handleJsonChange at h
    rw [hRO] at h
    simp only [Bool.false_eq_true, if_false] at h
    split at h
    · simp only [Option.some.injEq] at h
      rw [← h]
      exact syncJson_jsonString_of_open _ hOpen
    · split at h
      · split at h
        · simp only [Option.some.injEq] at h
          rw [← h]
          exact syncJson_jsonString_of_open _ hOpen
        · simp only [Option.some.injEq] at h
          rw [← h]
      · simp only [Option.some.injEq] at h
        rw [← h]
    · simp only [Option.some.injEq] at h
      rw [← h]
    · exact absurd h (by simp)

/-- Witness for C7 at the open-panel state. -/
theorem C7_witness :
    (addLink openState "3").jsonString = openState.jsonString :=
  (C7_open_panel_keeps_buffer openState rfl "3" "1" "x" "1" "[]" .label none).1

/-! ## Claim C8 -/

/-- C8: `updateLink` rewrites only the named field of the items whose
id matches, keeping their id and other field, and keeps the list's
length and order; `removeLink` removes exactly the items with the
given id and keeps the relative order of the rest. -/
theorem C8_update_remove_frame (s : AppState) (id value : String) (field : LinkField) :
    (updateLink s id field value).links.length = s.links.length
    ∧ (∀ i (h : i < s.links.length) (h2 : i < (updateLink s id field value).links.length),
        (updateLink s id field value).links.get ⟨i, h2⟩
          = (if (s.links.get ⟨i, h⟩).id = id
             then setLinkField (s.links.get ⟨i, h⟩) field value
             else s.links.get ⟨i, h⟩))
    ∧ (∀ l, (setLinkField l field value).id = l.id)
    ∧ (∀ l, (setLinkField l .label value).url = l.url
        ∧ (setLinkField l .label value).label = value)
    ∧ (∀ l, (setLinkField l .url value).label = l.label
        ∧ (setLinkField l .url value).url = value)
    ∧ (removeLink s id).links.Sublist s.links
    ∧ (∀ l, l ∈ (removeLink s id).links ↔ l ∈ s.links ∧ l.id ≠ id) := by
  have hu : (updateLink s id field value).links
      = s.links.map (fun l => if l.id = id then setLinkField l field value else l) := by
    rw [updateLink, syncJson_links]
  have hr : (removeLink s id).links = s.links.filter (fun l => l.id ≠ id) := by
    rw [removeLink, syncJson_links]
  refine ⟨by rw [hu]; exact s.links.length_map _, ?_, ?_, ?_, ?_, ?_, ?_⟩
  · intro i h h2
    simp only [hu, List.get_eq_getElem, List.getElem_map]
  · intro l; cases field <;> rfl
  · intro l; exact ⟨rfl, rfl⟩
  · intro l; exact ⟨rfl, rfl⟩
  · rw [hr]; exact List.filter_sublist _
  · intro l; rw [hr]; simp [List.mem_filter]

/-- Witness for C8 (the universally quantified field equations are
instantiated at the initial state). -/
theorem C8_witness :
    (updateLink initialState "1" .label "x").links.length = initialState.links.length :=
  (C8_update_remove_frame initialState "1" "x" .label).1

/-! ## Claim C10 -/

/-- C10: the download filename is the title with every character that
is not a Latin letter or digit replaced by an underscore, lowercased,
plus `.json`; the fallback `links.json` appears exactly when that
transformed string is empty, which happens only for the empty title,
and a nonempty all-non-alphanumeric title gives a filename of
underscores, not the fallback. -/
theorem C10_download_filename (title : String) :
    (title = "" → downloadFileName title = "links.json")
    ∧ (title ≠ "" →
        downloadFileName title = titleSlug title ++ ".json" ∧ titleSlug title ≠ "")
    ∧ (title ≠ "" →
        (∀ c ∈ title.data,
          ¬(('a' ≤ c ∧ c ≤ 'z') ∨ ('A' ≤ c ∧ c ≤ 'Z') ∨ ('0' ≤ c ∧ c ≤ '9'))) →
        downloadFileName title = String.mk (List.replicate title.length '_') ++ ".json") := by
  have hlen : (titleSlug title).length = title.length := by
    show (titleSlug title).data.length = title.data.length
    unfold titleSlug
    simp
  have hne : title ≠ "" → titleSlug title ≠ "" := by
    intro h hcon
    apply h
    rw [hcon] at hlen
    have h0 : title.data.length = 0 := hlen.symm
    cases htd : title.data with
    | nil => cases title; simp_all
    | cons c cs => rw [htd] at h0; simp at h0
  refine ⟨?_, fun h => ⟨?_, hne h⟩, ?_⟩
  · intro h; subst h; rfl
  · unfold downloadFileName
    rw [if_neg (hne h)]
  · intro h hall
    have hmap : titleSlug title = String.mk (List.replicate title.length '_') := by
      unfold titleSlug
      congr 1
      rw [List.eq_replicate_iff]
      constructor
      · simp
      · intro b hb
        simp only [List.mem_map] at hb
        obtain ⟨c, hc, hbc⟩ := hb
        obtain ⟨c2, hc2, hbc2⟩ := hc
        rw [if_neg (hall c2 hc2)] at hbc2
        rw [← hbc2] at hbc
        rw [← hbc]
        decide
    unfold downloadFileName
    rw [hmap, if_neg]
    rw [← hmap]
    exact hne h

/-- Witness for C10 on a mixed title. -/
theorem C10_witness :
    downloadFileName "My Useful Links!" = titleSlug "My Useful Links!" ++ ".json"
    ∧ titleSlug "My Useful Links!" = "my_useful_links_" := by
  refine ⟨((C10_download_filename "My Useful Links!").2.1 (by decide)).1, by decide⟩

/-! ## Claim C4 -/

theorem findIdx?_go_some {α : Type} {p : α → Bool} :
    ∀ (l : List α) (n i : Nat), List.findIdx? p l n = some i →
      n ≤ i ∧ ∃ h : i - n < l.length, p (l.get ⟨i - n, h⟩) = true := by
  intro l
  induction l with
  | nil => intro n i h; rw [List.findIdx?_nil] at h; exact absurd h (by simp)
  | cons x xs ih =>
    intro n i h
    rw [List.findIdx?_cons] at h
    by_cases hp : p x = true
    · rw [if_pos hp] at h
      have : n = i := by simpa using h
      subst this
      exact ⟨le_refl n, by simpa using hp⟩
    · rw [if_neg hp] at h
      obtain ⟨hle, hlt, hpi⟩ := ih (n + 1) i h
      refine ⟨by omega, ?_⟩
      have hin : i - n = (i - (n + 1)) + 1 := by omega
      rw [hin]
      refine ⟨by simpa using hlt, ?_⟩
      simpa using hpi

/-- The first index `findIdx?` reports is in range and satisfies the
predicate there. -/
theorem findIdx?_some_spec {α : Type} {p : α → Bool} {l : List α} {i : Nat}
    (h : l.findIdx? p = some i) :
    ∃ hlt : i < l.length, p (l.get ⟨i, hlt⟩) = true := by
  have := findIdx?_go_some l 0 i h
  simpa using this.2

/-- C4: `handleDragEnd` with a drop target different from the dragged
id moves the dragged item to the drop target's index: the new list is
a permutation of the old one, the item lands at the target index, the
other items keep their relative order, and the length is unchanged;
with no drop target or equal ids the state is untouched. -/
theorem C4_drag_end_moves
    (s : AppState) (aid oid : String) (i j : Nat)
    (hne : aid ≠ oid)
    (hi : s.links.findIdx? (fun item => item.id == aid) = some i)
    (hj : s.links.findIdx? (fun item => item.id == oid) = some j) :
    (handleDragEnd s aid none = s)
    ∧ (handleDragEnd s aid (some aid) = s)
    ∧ ((handleDragEnd s aid (some oid)).links.Perm s.links
       ∧ (handleDragEnd s aid (some oid)).links.eraseIdx j = s.links.eraseIdx i
       ∧ (handleDragEnd s aid (some oid)).links[j]? = s.links[i]?
       ∧ (handleDragEnd s aid (some oid)).links.length = s.links.length) := by
  obtain ⟨hib, hpi⟩ := findIdx?_some_spec hi
  obtain ⟨hjb, hpj⟩ := findIdx?_some_spec hj
  refine ⟨rfl, by simp [handleDragEnd], ?_⟩
  have hx : (handleDragEnd s aid (some oid)).links
      = (s.links.eraseIdx i).insertIdx j (s.links.get ⟨i, hib⟩) := by
    unfold handleDragEnd
    simp only [hne, ne_eq, not_false_eq_true, if_true, syncJson_links]
    unfold jsFindIndex
    rw [hi, hj]
    unfold jsArrayMove
    rw [dif_pos (by simp [hib])]
    have h2 : ((j : Int) < 0) = False := by simp
    simp only [h2, if_false, Int.toNat_natCast]
    have hlen2 : (s.links.eraseIdx i).length = s.links.length - 1 := by
      rw [List.length_eraseIdx]
      simp [hib]
    rw [hlen2, min_eq_left (by omega)]
  have hjle : j ≤ (s.links.eraseIdx i).length := by
    rw [List.length_eraseIdx]
    simp only [hib, if_true]
    omega
  have hcons : ∀ (l : List LinkItem) (k : Nat) (hk : k < l.length),
      (l.get ⟨k, hk⟩ :: l.eraseIdx k).Perm l := by
    intro l
    induction l with
    | nil => intro k hk; exact absurd hk (by simp)
    | cons a t ih =>
      intro k hk
      cases k with
      | zero => simp
      | succ k =>
        have hk2 : k < t.length := by simpa using hk
        have hswap : (t.get ⟨k, hk2⟩ :: a :: t.eraseIdx k).Perm
            (a :: t.get ⟨k, hk2⟩ :: t.eraseIdx k) :=
          List.Perm.swap a (t.get ⟨k, hk2⟩) (t.eraseIdx k)
        exact hswap.trans ((ih k hk2).cons a)
  refine ⟨?_, ?_, ?_, ?_⟩
  · rw [hx]
    exact ((List.perm_insertIdx _ _ hjle).trans (hcons s.links i hib))
  · rw [hx, List.eraseIdx_insertIdx]
  · rw [hx]
    have hjlt : j < ((s.links.eraseIdx i).insertIdx j (s.links.get ⟨i, hib⟩)).length := by
      rw [List.length_insertIdx _ _ hjle]
      omega
    rw [List.getElem?_eq_getElem hjlt, List.getElem?_eq_getElem hib]
    congr 1
    exact List.getElem_insertIdx_self _ _ _ hjle
  · rw [hx, List.length_insertIdx _ _ hjle, List.length_eraseIdx]
    simp only [hib, if_true]
    omega

/-- Witness for C4 on the initial two-element list (dragging item 1
onto item 2). -/
theorem C4_witness :
    (handleDragEnd initialState "1" (some "2")).links.Perm initialState.links := by
  have h := C4_drag_end_moves initialState "1" "2" 0 1 (by decide) (by decide) (by decide)
  exact h.2.2.1

/-! ## Claim C2 -/

/-- C2: when the typed text does not parse as JSON, `handleJsonChange`
leaves the structured state (links and title) untouched, records the
error `"Invalid JSON syntax"`, and stores the typed text in the
buffer; the hypothesis that the component is not in read-only mode
reflects that an edit of the textarea can only happen then. -/
theorem C2_invalid_json_is_atomic (s : AppState) (text : String)
    (hRO : s.isReadOnly = false) (hp : Json.parse text = .err) :
    handleJsonChange s text
      = some { s with jsonString := text, jsonError := some "Invalid JSON syntax" } := by
  unfold handleJsonChange
  rw [hRO]
  simp only [Bool.false_eq_true, if_false]
  rw [hp]

/-- Witness for C2: typing a lone opening brace. -/
theorem C2_witness :
    handleJsonChange initialState "\x7b"
      = some { initialState with jsonString := "\x7b", jsonError := some "Invalid JSON syntax" } :=
  C2_invalid_json_is_atomic initialState "\x7b" rfl rfl

/-! ## Claim C9 -/

/-- C9: the two intake paths treat the title differently: on a bare
array `uploadJson` sets it to `"Imported List"` while
`handleJsonChange` keeps the current title; on an object with an
`items` array, `uploadJson` takes the parsed title when truthy and
`"Untitled List"` otherwise, while `handleJsonChange` takes the parsed
title when truthy and otherwise keeps the current title (also when the
field is absent, empty or otherwise falsy). -/
theorem C9_title_asymmetry (s : AppState) (text : String) (items : List Json)
    (kvs : List (String × Json)) (t : Json)
    (hRO : s.isReadOnly = false) :
    (Json.parse text = .ok (.arr items) →
      (uploadJson s text).map (fun p => p.1.title) = some "Imported List"
      ∧ (handleJsonChange s text).map (fun s2 => s2.title) = some s.title)
    ∧ (Json.parse text = .ok (.obj kvs) →
        (Json.obj kvs).getField "items" = some (.arr items) →
        (Json.obj kvs).getField "title" = some t →
        jsTruthy t = true →
        (uploadJson s text).map (fun p => p.1.title) = some (jsToStr t)
        ∧ (handleJsonChange s text).map (fun s2 => s2.title) = some (jsToStr t))
    ∧ (Json.parse text = .ok (.obj kvs) →
        (Json.obj kvs).getField "items" = some (.arr items) →
        ((Json.obj kvs).getField "title" = none
          ∨ ((Json.obj kvs).getField "title" = some t ∧ jsTruthy t = false)) →
        (uploadJson s text).map (fun p => p.1.title) = some "Untitled List"
        ∧ (handleJsonChange s text).map (fun s2 => s2.title) = some s.title)
    ∧ (∀ u : String, jsToStr (.str u) = u) := by
  refine ⟨?_, ?_, ?_, fun _ => rfl⟩
  · intro hp
    constructor
    · unfold uploadJson
      rw [hp]
      simp [syncJson_title]
    · unfold handleJsonChange
      rw [hRO]
      simp only [Bool.false_eq_true, if_false]
      rw [hp]
      simp [syncJson_title]
  · intro hp hitems htitle htruthy
    constructor
    · unfold uploadJson
      rw [hp]
      simp only
      rw [hitems, htitle]
      simp [syncJson_title, htruthy]
    · unfold handleJsonChange
      rw [hRO]
      simp only [Bool.false_eq_true, if_false]
      rw [hp]
      simp only
      rw [hitems, htitle]
      simp [syncJson_title, htruthy]
  · intro hp hitems htitle
    constructor
    · unfold uploadJson
      rw [hp]
      simp only
      rw [hitems]
      rcases htitle with h | ⟨h, hf⟩
      · rw [h]
        simp [syncJson_title]
      · rw [h]
        simp [syncJson_title, hf]
    · unfold handleJsonChange
      rw [hRO]
      simp only [Bool.false_eq_true, if_false]
      rw [hp]
      simp only
      rw [hitems]
      rcases htitle with h | ⟨h, hf⟩
      · rw [h]
        simp [syncJson_title]
      · rw [h]
        simp [syncJson_title, hf]

/-- Witness for C9: uploading a bare array renames the list to
`"Imported List"` while the same text typed into the editor keeps the
current title. -/
theorem C9_witness :
    (uploadJson initialState "[]").map (fun p => p.1.title) = some "Imported List"
    ∧ (handleJsonChange initialState "[]").map (fun s2 => s2.title)
        = some initialState.title :=
  (C9_title_asymmetry initialState "[]" [] [] .null rfl).1 rfl

/-! ## Claim C3 -/

/-- C3: both intake paths accept a text exactly when it parses as
JSON and is shaped as an array or as an object whose `items` field is
an array (`jsonShapeOk`, which looks only at the top-level shape, so
no element-level validation happens); on acceptance they replace the
links and clear or do not raise an error, and in every other case they
report an error (`jsonError` or an alert) and leave the state
untouched apart from the typed text. -/
theorem C3_accept_exactly_shape (s : AppState) (text : String) (j : Json)
    (hRO : s.isReadOnly = false) :
    (Json.parse text = .ok j → jsonShapeOk j = true →
      (handleJsonChange s text).map (fun s2 => s2.jsonError) = some none
      ∧ (handleJsonChange s text).map (fun s2 => s2.links)
          = some ((jsonItems j).map jsToLinkItem)
      ∧ (uploadJson s text).map (fun p => p.2) = some none
      ∧ (uploadJson s text).map (fun p => p.1.links)
          = some ((jsonItems j).map jsToLinkItem))
    ∧ (Json.parse text = .ok j → jsonShapeOk j = false →
      handleJsonChange s text
        = some { s with
            jsonString := text,
            jsonError := some "Invalid format: Expected array or \x7b title, items: [] \x7d" }
      ∧ uploadJson s text = some (s, some "File is not a valid LinkList file."))
    ∧ (Json.parse text = .err →
      handleJsonChange s text
        = some { s with jsonString := text, jsonError := some "Invalid JSON syntax" }
      ∧ uploadJson s text = some (s, some "Error parsing JSON file.")) := by
  refine ⟨?_, ?_, ?_⟩
  · intro hp hshape
    have hcase : (∃ xs, j = .arr xs)
        ∨ (∃ kvs xs, j = .obj kvs ∧ (Json.obj kvs).getField "items" = some (.arr xs)) := by
      match j with
      | .arr xs => exact Or.inl ⟨xs, rfl⟩
      | .obj kvs =>
        unfold jsonShapeOk at hshape
        simp only at hshape
        split at hshape
        · rename_i a heq
          exact Or.inr ⟨kvs, a, rfl, heq⟩
        · exact absurd hshape (by simp)
      | .null => simp [jsonShapeOk] at hshape
      | .bool b => simp [jsonShapeOk] at hshape
      | .num lex => simp [jsonShapeOk] at hshape
      | .str u => simp [jsonShapeOk] at hshape
    rcases hcase with ⟨xs, rfl⟩ | ⟨kvs, xs, rfl, hxs⟩
    · refine ⟨?_, ?_, ?_, ?_⟩
      · unfold handleJsonChange
        rw [hRO]
        simp only [Bool.false_eq_true, if_false]
        rw [hp]
        simp [jsonItems, syncJson_jsonError]
      · unfold handleJsonChange
        rw [hRO]
        simp only [Bool.false_eq_true, if_false]
        rw [hp]
        simp [jsonItems, syncJson_links]
      · unfold uploadJson
        rw [hp]
        simp
      · unfold uploadJson
        rw [hp]
        simp [jsonItems, syncJson_links]
    · have hji : jsonItems (Json.obj kvs) = xs := by
        unfold jsonItems
        rw [hxs]
      refine ⟨?_, ?_, ?_, ?_⟩
      · unfold handleJsonChange
        rw [hRO]
        simp only [Bool.false_eq_true, if_false]
        rw [hp]
        simp only
        rw [hxs]
        simp [syncJson_jsonError]
      · unfold handleJsonChange
        rw [hRO]
        simp only [Bool.false_eq_true, if_false]
        rw [hp]
        simp only
        rw [hxs, hji]
        simp [syncJson_links]
      · unfold uploadJson
        rw [hp]
        simp only
        rw [hxs]
        simp
      · unfold uploadJson
        rw [hp]
        simp only
        rw [hxs, hji]
        simp [syncJson_links]
  · intro hp hshape
    have hcase : (∃ kvs, j = .obj kvs
          ∧ ∀ xs, (Json.obj kvs).getField "items" = some (.arr xs) → False)
        ∨ j = .null ∨ (∃ b, j = .bool b) ∨ (∃ lex, j = .num lex) ∨ (∃ u, j = .str u) := by
      match j with
      | .arr xs => simp [jsonShapeOk] at hshape
      | .obj kvs =>
        unfold jsonShapeOk at hshape
        simp only at hshape
        split at hshape
        · exact absurd hshape (by simp)
        · rename_i hnone
          exact Or.inl ⟨kvs, rfl, fun xs hx => hnone xs hx⟩
      | .null => exact Or.inr (Or.inl rfl)
      | .bool b => exact Or.inr (Or.inr (Or.inl ⟨b, rfl⟩))
      | .num lex => exact Or.inr (Or.inr (Or.inr (Or.inl ⟨lex, rfl⟩)))
      | .str u => exact Or.inr (Or.inr (Or.inr (Or.inr ⟨u, rfl⟩)))
    constructor
    · unfold handleJsonChange
      rw [hRO]
      simp only [Bool.false_eq_true, if_false]
      rw [hp]
      rcases hcase with ⟨kvs, rfl, hbad⟩ | rfl | ⟨b, rfl⟩ | ⟨lex, rfl⟩ | ⟨u, rfl⟩ <;>
        simp only
    · unfold uploadJson
      rw [hp]
      rcases hcase with ⟨kvs, rfl, hbad⟩ | rfl | ⟨b, rfl⟩ | ⟨lex, rfl⟩ | ⟨u, rfl⟩ <;>
        simp only
  · intro hp
    constructor
    · unfold handleJsonChange
      rw [hRO]
      simp only [Bool.false_eq_true, if_false]
      rw [hp]
    · unfold uploadJson
      rw [hp]

/-- Witness for C3: an object text whose `items` is an array is
accepted with no further element validation (the element `5` is not a
link object, yet the intake succeeds). -/
theorem C3_witness :
    (handleJsonChange initialState "\x7b\"items\":[5]\x7d").map (fun s2 => s2.jsonError)
      = some none := by
  have h := (C3_accept_exactly_shape initialState "\x7b\"items\":[5]\x7d"
    (.obj [("items", .arr [.num "5"])]) rfl).1 rfl rfl
  exact h.1

/-! ## Round-trip groundwork: whitespace and string escapes -/

theorem skipWs_cons_ws (c : Char) (cs : List Char) (h : isJsonWs c = true) :
    skipWs (c :: cs) = skipWs cs := by
  simp [skipWs, List.dropWhile_cons, h]

theorem skipWs_cons_not (c : Char) (cs : List Char) (h : isJsonWs c = false) :
    skipWs (c :: cs) = c :: cs := by
  simp [skipWs, List.dropWhile_cons, h]

theorem skipWs_append_ws (ws cs : List Char) (h : ∀ c ∈ ws, isJsonWs c = true) :
    skipWs (ws ++ cs) = skipWs cs := by
  induction ws with
  | nil => rfl
  | cons a t ih =>
    rw [List.cons_append, skipWs_cons_ws a _ (h a (by simp))]
    exact ih (fun c hc => h c (by simp [hc]))

theorem indentSp_allWs (n : Nat) : ∀ c ∈ indentSp n, isJsonWs c = true := by
  intro c hc
  have h : c = ' ' := List.eq_of_mem_replicate (by simpa [indentSp] using hc)
  subst h
  rfl

theorem hexVal_hexDigit (k : Nat) (h : k < 16) : hexVal (hexDigit k) = some k := by
  interval_cases k <;> decide

theorem escChar_ne_nil (c : Char) : escChar c ≠ [] := by
  unfold escChar
  split_ifs <;> simp

/-- Each character contributes at least one rendered character, so a
string body is at least as long as the string. -/
theorem escBody_length_ge (cs : List Char) :
    cs.length ≤ ((cs.map escChar).flatten).length := by
  induction cs with
  | nil => simp
  | cons c t ih =>
    simp only [List.map_cons, List.flatten_cons, List.length_append, List.length_cons]
    have h1 : 1 ≤ (escChar c).length := by
      cases he : escChar c with
      | nil => exact absurd he (escChar_ne_nil c)
      | cons a l => simp
    omega

/-- One step of `parseStrBody` across a two-character escape. -/
theorem parseStrBody_step_esc (fuel : Nat) (e c2 : Char) (tail : List Char)
    (hd : escDecode e = some c2) (he : e ≠ 'u') :
    parseStrBody (fuel + 1) ('\\' :: e :: tail)
      = (parseStrBody fuel tail).map (fun p => (c2 :: p.1, p.2)) := by
  conv_lhs => unfold parseStrBody
  simp only
  rw [if_neg he, hd]
  simp

/-- One step of `parseStrBody` across a plain character. -/
theorem parseStrBody_step_plain (fuel : Nat) (c : Char) (tail : List Char)
    (h1 : ¬c = '"') (h2 : ¬c = '\\') (h3 : ¬c.toNat < 0x20) :
    parseStrBody (fuel + 1) (c :: tail)
      = (parseStrBody fuel tail).map (fun p => (c :: p.1, p.2)) := by
  conv_lhs => unfold parseStrBody
  simp only
  rw [if_neg h1, if_neg h2, if_neg h3]

/-- One step of `parseStrBody` across a `\u00xx` control escape. -/
theorem parseStrBody_step_u (fuel : Nat) (c : Char) (tail : List Char)
    (h : c.toNat < 0x20) :
    parseStrBody (fuel + 1)
        ('\\' :: 'u' :: '0' :: '0' :: hexDigit (c.toNat / 16) :: hexDigit (c.toNat % 16) :: tail)
      = (parseStrBody fuel tail).map (fun p => (c :: p.1, p.2)) := by
  conv_lhs => unfold parseStrBody
  simp only
  unfold hex4
  simp only
  rw [show hexVal '0' = some 0 from rfl,
    hexVal_hexDigit (c.toNat / 16) (by omega),
    hexVal_hexDigit (c.toNat % 16) (Nat.mod_lt _ (by omega))]
  have hn : ((0 * 16 + 0) * 16 + c.toNat / 16) * 16 + c.toNat % 16 = c.toNat := by
    have := Nat.div_add_mod c.toNat 16
    omega
  simp only [hn]
  rw [if_pos (Or.inl (by omega)), Char.ofNat_toNat]
  simp

/-- Round trip of one escaped string body: parsing the rendering of
`cs` followed by the closing quote recovers `cs`. -/
theorem parseStrBody_rt (cs : List Char) : ∀ (fuel : Nat) (rest : List Char),
    cs.length < fuel →
    parseStrBody fuel ((cs.map escChar).flatten ++ '"' :: rest) = .ok (cs, rest) := by
  induction cs with
  | nil =>
    intro fuel rest h
    match fuel with
    | fuel + 1 => rfl
  | cons c t ih =>
    intro fuel rest h
    match fuel with
    | fuel + 1 =>
      have hf : t.length < fuel := by
        simp only [List.length_cons] at h
        omega
      have hih := ih fuel rest hf
      rw [List.map_cons, List.flatten_cons, List.append_assoc]
      by_cases h1 : c = '"'
      · subst h1
        rw [show escChar '"' = ['\\', '"'] from rfl,
          show (['\\', '"'] : List Char) ++ ((t.map escChar).flatten ++ '"' :: rest)
            = '\\' :: '"' :: ((t.map escChar).flatten ++ '"' :: rest) from rfl,
          parseStrBody_step_esc fuel '"' '"' _ rfl (by decide), hih]; rfl
      · by_cases h2 : c = '\\'
        · subst h2
          rw [show escChar '\\' = ['\\', '\\'] from rfl,
            show (['\\', '\\'] : List Char) ++ ((t.map escChar).flatten ++ '"' :: rest)
              = '\\' :: '\\' :: ((t.map escChar).flatten ++ '"' :: rest) from rfl,
            parseStrBody_step_esc fuel '\\' '\\' _ rfl (by decide), hih]; rfl
        · by_cases h3 : c = '\x08'
          · subst h3
            rw [show escChar '\x08' = ['\\', 'b'] from rfl,
              show (['\\', 'b'] : List Char) ++ ((t.map escChar).flatten ++ '"' :: rest)
                = '\\' :: 'b' :: ((t.map escChar).flatten ++ '"' :: rest) from rfl,
              parseStrBody_step_esc fuel 'b' '\x08' _ rfl (by decide), hih]; rfl
          · by_cases h4 : c = '\t'
            · subst h4
              rw [show escChar '\t' = ['\\', 't'] from rfl,
                show (['\\', 't'] : List Char) ++ ((t.map escChar).flatten ++ '"' :: rest)
                  = '\\' :: 't' :: ((t.map escChar).flatten ++ '"' :: rest) from rfl,
                parseStrBody_step_esc fuel 't' '\t' _ rfl (by decide), hih]; rfl
            · by_cases h5 : c = '\n'
              · subst h5
                rw [show escChar '\n' = ['\\', 'n'] from rfl,
                  show (['\\', 'n'] : List Char) ++ ((t.map escChar).flatten ++ '"' :: rest)
                    = '\\' :: 'n' :: ((t.map escChar).flatten ++ '"' :: rest) from rfl,
                  parseStrBody_step_esc fuel 'n' '\n' _ rfl (by decide), hih]; rfl
              · by_cases h6 : c = '\x0c'
                · subst h6
                  rw [show escChar '\x0c' = ['\\', 'f'] from rfl,
                    show (['\\', 'f'] : List Char) ++ ((t.map escChar).flatten ++ '"' :: rest)
                      = '\\' :: 'f' :: ((t.map escChar).flatten ++ '"' :: rest) from rfl,
                    parseStrBody_step_esc fuel 'f' '\x0c' _ rfl (by decide), hih]; rfl
                · by_cases h7 : c = '\r'
                  · subst h7
                    rw [show escChar '\r' = ['\\', 'r'] from rfl,
                      show (['\\', 'r'] : List Char) ++ ((t.map escChar).flatten ++ '"' :: rest)
                        = '\\' :: 'r' :: ((t.map escChar).flatten ++ '"' :: rest) from rfl,
                      parseStrBody_step_esc fuel 'r' '\r' _ rfl (by decide), hih]; rfl
                  · by_cases h8 : c.toNat < 0x20
                    · have hesc : escChar c = ['\\', 'u', '0', '0',
                          hexDigit (c.toNat / 16), hexDigit (c.toNat % 16)] := by
                        unfold escChar
                        rw [if_neg h1, if_neg h2, if_neg h3, if_neg h4, if_neg h5,
                          if_neg h6, if_neg h7, if_pos h8]
                      rw [hesc,
                        show (['\\', 'u', '0', '0', hexDigit (c.toNat / 16),
                            hexDigit (c.toNat % 16)] : List Char)
                            ++ ((t.map escChar).flatten ++ '"' :: rest)
                          = '\\' :: 'u' :: '0' :: '0' :: hexDigit (c.toNat / 16) ::
                            hexDigit (c.toNat % 16) ::
                            ((t.map escChar).flatten ++ '"' :: rest) from rfl,
                        parseStrBody_step_u fuel c _ h8, hih]; rfl
                    · have hesc : escChar c = [c] := by
                        unfold escChar
                        rw [if_neg h1, if_neg h2, if_neg h3, if_neg h4, if_neg h5,
                          if_neg h6, if_neg h7, if_neg h8]
                      rw [hesc, List.singleton_append,
                        parseStrBody_step_plain fuel c _ h1 h2 h8, hih]; rfl

/-! ## Round-trip groundwork: values -/

theorem string_mk_data (s : String) : String.mk s.data = s := by
  cases s
  rfl

theorem parseV_ws (fuel : Nat) (ws0 z : List Char) (h : ∀ c ∈ ws0, isJsonWs c = true) :
    parseV (fuel + 1) (ws0 ++ z) = parseV (fuel + 1) z := by
  conv_lhs => unfold parseV
  conv_rhs => unfold parseV
  rw [skipWs_append_ws _ _ h]

theorem jweight_pos (j : Json) : 1 ≤ jweight j := by
  cases j <;> simp [jweight]

/-- A rendered good value begins with a non-whitespace character that
is neither a closing bracket nor a closing brace. -/
theorem render_head (ind : Nat) (j : Json) (hg : goodJson j) :
    ∃ hd tl, render ind j = hd :: tl
      ∧ isJsonWs hd = false ∧ (hd = ']') = False ∧ (hd = '\x7d') = False := by
  match j with
  | .null =>
    exact ⟨'n', ['u', 'l', 'l'], by simp [render], by decide, by decide, by decide⟩
  | .bool true =>
    exact ⟨'t', ['r', 'u', 'e'], by simp [render], by decide, by decide, by decide⟩
  | .bool false =>
    exact ⟨'f', ['a', 'l', 's', 'e'], by simp [render], by decide, by decide, by decide⟩
  | .num lex => exact absurd hg (by simp [goodJson])
  | .str s =>
    exact ⟨'"', escBody s ++ ['"'], by simp [render, encStr], by decide, by decide, by decide⟩
  | .arr [] =>
    exact ⟨'[', [']'], by simp [render], by decide, by decide, by decide⟩
  | .arr (x :: xs) =>
    exact ⟨'[', '\n' :: (renderElems (ind + 2) x xs ++ '\n' :: (indentSp ind ++ [']'])),
      by simp [render], by decide, by decide, by decide⟩
  | .obj [] =>
    exact ⟨'\x7b', ['\x7d'], by simp [render], by decide, by decide, by decide⟩
  | .obj ((k, v) :: kvs) =>
    exact ⟨'\x7b', '\n' :: (renderMembers (ind + 2) k v kvs ++ '\n' :: (indentSp ind ++ ['\x7d'])),
      by simp [render], by decide, by decide, by decide⟩

theorem renderElems_shape (ind : Nat) (x : Json) (xs : List Json) (ws rest : List Char) :
    renderElems ind x xs ++ '\n' :: (ws ++ ']' :: rest)
      = indentSp ind ++ (render ind x ++ elemsTail ind xs ws rest) := by
  cases xs <;> simp [renderElems, elemsTail, List.append_assoc]

theorem renderMembers_shape (ind : Nat) (k : String) (v : Json)
    (kvs : List (String × Json)) (ws rest : List Char) :
    renderMembers ind k v kvs ++ '\n' :: (ws ++ '\x7d' :: rest)
      = indentSp ind ++ (encStr k ++ ':' :: ' ' :: (render ind v ++ membersTail ind kvs ws rest)) := by
  match kvs with
  | [] => simp [renderMembers, membersTail, List.append_assoc]
  | (k2, v2) :: rest2 => simp [renderMembers, membersTail, List.append_assoc]

theorem insertMember_not_mem (k : String) (v : Json) (rest : List (String × Json))
    (h : ∀ kv2 ∈ rest, kv2.1 ≠ k) :
    insertMember k v rest = (k, v) :: rest := by
  unfold insertMember
  have hfind : rest.find? (fun kv => kv.1 == k) = none := by
    rw [List.find?_eq_none]
    intro kv hkv
    simp [h kv hkv]
  rw [hfind]

theorem parseV_step_null (fuel : Nat) (rest : List Char) :
    parseV (fuel + 1) ('n' :: 'u' :: 'l' :: 'l' :: rest) = .ok (.null, rest) := by
  conv_lhs => unfold parseV
  rw [skipWs_cons_not _ _ (by decide)]
  simp

theorem parseV_step_true (fuel : Nat) (rest : List Char) :
    parseV (fuel + 1) ('t' :: 'r' :: 'u' :: 'e' :: rest) = .ok (.bool true, rest) := by
  conv_lhs => unfold parseV
  rw [skipWs_cons_not _ _ (by decide)]
  simp

theorem parseV_step_false (fuel : Nat) (rest : List Char) :
    parseV (fuel + 1) ('f' :: 'a' :: 'l' :: 's' :: 'e' :: rest) = .ok (.bool false, rest) := by
  conv_lhs => unfold parseV
  rw [skipWs_cons_not _ _ (by decide)]
  simp

theorem parseV_step_str (fuel : Nat) (body : List Char) :
    parseV (fuel + 1) ('"' :: body)
      = (parseStrBody (body.length + 1) body).map (fun p => (.str ⟨p.1⟩, p.2)) := by
  conv_lhs => unfold parseV
  rw [skipWs_cons_not _ _ (by decide)]
  simp

theorem parseV_step_arr_empty (fuel : Nat) (rest : List Char) :
    parseV (fuel + 1) ('[' :: ']' :: rest) = .ok (.arr [], rest) := by
  conv_lhs => unfold parseV
  rw [skipWs_cons_not _ _ (by decide)]
  simp [skipWs_cons_not ']' rest (by decide)]

theorem parseV_step_obj_empty (fuel : Nat) (rest : List Char) :
    parseV (fuel + 1) ('\x7b' :: '\x7d' :: rest) = .ok (.obj [], rest) := by
  conv_lhs => unfold parseV
  rw [skipWs_cons_not _ _ (by decide)]
  simp [skipWs_cons_not '\x7d' rest (by decide)]

theorem parseV_step_arr (fuel : Nat) (wsA : List Char) (hd : Char) (tl : List Char)
    (hws : ∀ c ∈ wsA, isJsonWs c = true) (hhd : isJsonWs hd = false)
    (hne : (hd = ']') = False) :
    parseV (fuel + 1) ('[' :: (wsA ++ hd :: tl))
      = (parseElems fuel (hd :: tl)).map (fun p => (.arr p.1, p.2)) := by
  conv_lhs => unfold parseV
  rw [skipWs_cons_not _ _ (by decide)]
  simp only [skipWs_append_ws _ _ hws, skipWs_cons_not _ _ hhd]
  simp [hne]

theorem parseV_step_obj (fuel : Nat) (wsA : List Char) (hd : Char) (tl : List Char)
    (hws : ∀ c ∈ wsA, isJsonWs c = true) (hhd : isJsonWs hd = false)
    (hne : (hd = '\x7d') = False) :
    parseV (fuel + 1) ('\x7b' :: (wsA ++ hd :: tl))
      = (parseMembers fuel (hd :: tl)).map (fun p => (.obj p.1, p.2)) := by
  conv_lhs => unfold parseV
  rw [skipWs_cons_not _ _ (by decide)]
  simp only [skipWs_append_ws _ _ hws, skipWs_cons_not _ _ hhd]
  simp [hne]

theorem wsNlIndent (n : Nat) : ∀ c ∈ '\n' :: indentSp n, isJsonWs c = true := by
  intro c hc
  rcases List.mem_cons.mp hc with rfl | h
  · rfl
  · exact indentSp_allWs n c h

/-- The parse of a rendering: one good JSON value rendered at any
indentation, preceded by whitespace and followed by anything, parses
back to itself; similarly for the element list of an array and the
member list of an object. -/
theorem parse_render_rt (fuel : Nat) :
    (∀ (ind : Nat) (j : Json) (ws0 rest : List Char),
      (∀ c ∈ ws0, isJsonWs c = true) → goodJson j → jweight j ≤ fuel →
      parseV fuel (ws0 ++ render ind j ++ rest) = .ok (j, rest))
    ∧ (∀ (ind : Nat) (x : Json) (xs : List Json) (ws0 ws rest : List Char),
      (∀ c ∈ ws0, isJsonWs c = true) → (∀ c ∈ ws, isJsonWs c = true) →
      goodJson x → goodList xs → eweight (x :: xs) ≤ fuel →
      parseElems fuel (ws0 ++ render ind x ++ elemsTail ind xs ws rest)
        = .ok (x :: xs, rest))
    ∧ (∀ (ind : Nat) (k : String) (v : Json) (kvs : List (String × Json)) (ws0 ws rest : List Char),
      (∀ c ∈ ws0, isJsonWs c = true) → (∀ c ∈ ws, isJsonWs c = true) →
      goodJson v → (∀ kv2 ∈ kvs, kv2.1 ≠ k) → goodKvs kvs →
      mweight ((k, v) :: kvs) ≤ fuel →
      parseMembers fuel
          (ws0 ++ (encStr k ++ ':' :: ' ' :: (render ind v ++ membersTail ind kvs ws rest)))
        = .ok ((k, v) :: kvs, rest)) := by
  induction fuel with
  | zero =>
    refine ⟨?_, ?_, ?_⟩
    · intro ind j ws0 rest hws0 hg hw
      exact absurd hw (by have := jweight_pos j; omega)
    · intro ind x xs ws0 ws rest hws0 hws hgx hgxs hw
      exact absurd hw (by simp [eweight])
    · intro ind k v kvs ws0 ws rest hws0 hws hgv hknot hgkvs hw
      exact absurd hw (by simp [mweight])
  | succ fuel ih =>
    obtain ⟨ihP, ihE, ihM⟩ := ih
    refine ⟨?_, ?_, ?_⟩
    · intro ind j ws0 rest hws0 hg hw
      rw [List.append_assoc, parseV_ws fuel ws0 _ hws0]
      match j with
      | .null =>
        rw [show render ind Json.null ++ rest = 'n' :: 'u' :: 'l' :: 'l' :: rest from by
          simp [render]]
        exact parseV_step_null fuel rest
      | .bool true =>
        rw [show render ind (Json.bool true) ++ rest = 't' :: 'r' :: 'u' :: 'e' :: rest from by
          simp [render]]
        exact parseV_step_true fuel rest
      | .bool false =>
        rw [show render ind (Json.bool false) ++ rest
            = 'f' :: 'a' :: 'l' :: 's' :: 'e' :: rest from by simp [render]]
        exact parseV_step_false fuel rest
      | .num lex => exact absurd hg (by simp [goodJson])
      | .str s =>
        rw [show render ind (Json.str s) ++ rest
            = '"' :: ((s.data.map escChar).flatten ++ '"' :: rest) from by
          simp [render, encStr, escBody]]
        rw [parseV_step_str]
        rw [parseStrBody_rt s.data _ rest (by
          have := escBody_length_ge s.data
          simp only [List.length_append, List.length_cons]
          omega)]
        rfl
      | .arr [] =>
        rw [show render ind (Json.arr []) ++ rest = '[' :: ']' :: rest from by simp [render]]
        exact parseV_step_arr_empty fuel rest
      | .arr (x :: xs) =>
        have hgx : goodJson x := hg.1
        have hgxs : goodList xs := hg.2
        obtain ⟨hd, tl, heq, hhdws, hhdne, _⟩ := render_head (ind + 2) x hgx
        have hinput : render ind (Json.arr (x :: xs)) ++ rest
            = '[' :: (('\n' :: indentSp (ind + 2))
              ++ (hd :: (tl ++ elemsTail (ind + 2) xs (indentSp ind) rest))) := by
          rw [show render ind (Json.arr (x :: xs))
              = '[' :: '\n' :: (renderElems (ind + 2) x xs
                ++ '\n' :: (indentSp ind ++ [']'])) from by simp [render]]
          simp only [List.cons_append, List.append_assoc, List.singleton_append]
          rw [renderElems_shape, heq]
          simp [List.append_assoc]
        rw [hinput, parseV_step_arr fuel _ hd _ (wsNlIndent _) hhdws hhdne]
        have hcall := ihE (ind + 2) x xs [] (indentSp ind) rest (by simp)
          (indentSp_allWs _) hgx hgxs (by
            simp only [jweight] at hw
            omega)
        rw [List.nil_append, heq] at hcall
        rw [show hd :: (tl ++ elemsTail (ind + 2) xs (indentSp ind) rest)
            = (hd :: tl) ++ elemsTail (ind + 2) xs (indentSp ind) rest from rfl, hcall]
        rfl
      | .obj [] =>
        rw [show render ind (Json.obj []) ++ rest = '\x7b' :: '\x7d' :: rest from by
          simp [render]]
        exact parseV_step_obj_empty fuel rest
      | .obj ((k, v) :: kvs) =>
        have hgv : goodJson v := hg.1
        have hknot : ∀ kv2 ∈ kvs, kv2.1 ≠ k := hg.2.1
        have hgkvs : goodKvs kvs := hg.2.2
        have hinput : render ind (Json.obj ((k, v) :: kvs)) ++ rest
            = '\x7b' :: (('\n' :: indentSp (ind + 2))
              ++ ('"' :: ((k.data.map escChar).flatten
                ++ '"' :: (':' :: ' ' :: (render (ind + 2) v
                  ++ membersTail (ind + 2) kvs (indentSp ind) rest))))) := by
          rw [show render ind (Json.obj ((k, v) :: kvs))
              = '\x7b' :: '\n' :: (renderMembers (ind + 2) k v kvs
                ++ '\n' :: (indentSp ind ++ ['\x7d'])) from by simp [render]]
          simp only [List.cons_append, List.append_assoc, List.singleton_append]
          rw [renderMembers_shape]
          simp [encStr, escBody, List.append_assoc]
        rw [hinput, parseV_step_obj fuel _ '"' _ (wsNlIndent _) (by decide) (by decide)]
        have hcall := ihM (ind + 2) k v kvs [] (indentSp ind) rest (by simp)
          (indentSp_allWs _) hgv hknot hgkvs (by
            simp only [jweight] at hw
            omega)
        rw [List.nil_append] at hcall
        rw [show ('"' : Char) :: ((k.data.map escChar).flatten
              ++ '"' :: (':' :: ' ' :: (render (ind + 2) v
                ++ membersTail (ind + 2) kvs (indentSp ind) rest)))
            = encStr k ++ ':' :: ' ' :: (render (ind + 2) v
              ++ membersTail (ind + 2) kvs (indentSp ind) rest) from by
          simp [encStr, escBody, List.append_assoc], hcall]
        rfl
    · intro ind x xs ws0 ws rest hws0 hws hgx hgxs hw
      conv_lhs => unfold parseElems
      rw [ihP ind x ws0 (elemsTail ind xs ws rest) hws0 hgx (by
        simp only [eweight] at hw
        omega)]
      simp only
      match xs with
      | [] =>
        rw [show elemsTail ind [] ws rest = '\n' :: (ws ++ ']' :: rest) from rfl]
        rw [skipWs_cons_ws '\n' _ (by decide), skipWs_append_ws _ _ hws,
          skipWs_cons_not _ _ (by decide)]
        rfl
      | y :: ys =>
        rw [show elemsTail ind (y :: ys) ws rest
            = ',' :: '\n' :: (renderElems ind y ys ++ '\n' :: (ws ++ ']' :: rest)) from rfl]
        rw [skipWs_cons_not _ _ (by decide)]
        simp only
        rw [show ('\n' :: (renderElems ind y ys ++ '\n' :: (ws ++ ']' :: rest)))
            = ('\n' :: indentSp ind) ++ render ind y ++ elemsTail ind ys ws rest from by
          rw [renderElems_shape]
          simp [List.append_assoc]]
        rw [ihE ind y ys ('\n' :: indentSp ind) ws rest (wsNlIndent _) hws
          hgxs.1 hgxs.2 (by
            simp only [eweight] at hw ⊢
            omega)]
        rfl
    · intro ind k v kvs ws0 ws rest hws0 hws hgv hknot hgkvs hw
      conv_lhs => unfold parseMembers
      rw [show ws0 ++ (encStr k ++ ':' :: ' ' :: (render ind v ++ membersTail ind kvs ws rest))
          = ws0 ++ ('"' :: ((k.data.map escChar).flatten
            ++ '"' :: (':' :: ' ' :: (render ind v ++ membersTail ind kvs ws rest)))) from by
        simp [encStr, escBody, List.append_assoc]]
      rw [skipWs_append_ws _ _ hws0, skipWs_cons_not _ _ (by decide)]
      simp only
      rw [parseStrBody_rt k.data _ _ (by
        have := escBody_length_ge k.data
        simp only [List.length_append, List.length_cons]
        omega)]
      simp only
      rw [skipWs_cons_not _ _ (by decide)]
      simp only
      rw [show (' ' :: (render ind v ++ membersTail ind kvs ws rest))
          = [' '] ++ render ind v ++ membersTail ind kvs ws rest from by simp]
      rw [ihP ind v [' '] (membersTail ind kvs ws rest) (by decide) hgv (by
        simp only [mweight] at hw
        omega)]
      simp only
      match kvs with
      | [] =>
        rw [show membersTail ind [] ws rest = '\n' :: (ws ++ '\x7d' :: rest) from rfl]
        rw [skipWs_cons_ws '\n' _ (by decide), skipWs_append_ws _ _ hws,
          skipWs_cons_not _ _ (by decide)]
        simp [string_mk_data]
      | (k2, v2) :: rest2 =>
        rw [show membersTail ind ((k2, v2) :: rest2) ws rest
            = ',' :: '\n' :: (renderMembers ind k2 v2 rest2
              ++ '\n' :: (ws ++ '\x7d' :: rest)) from rfl]
        rw [skipWs_cons_not _ _ (by decide)]
        simp only
        rw [show ('\n' :: (renderMembers ind k2 v2 rest2 ++ '\n' :: (ws ++ '\x7d' :: rest)))
            = ('\n' :: indentSp ind)
              ++ (encStr k2 ++ ':' :: ' ' :: (render ind v2
                ++ membersTail ind rest2 ws rest)) from by
          rw [renderMembers_shape]
          simp [List.append_assoc]]
        rw [ihM ind k2 v2 rest2 ('\n' :: indentSp ind) ws rest (wsNlIndent _) hws
          hgkvs.1 hgkvs.2.1 hgkvs.2.2 (by
            simp only [mweight] at hw ⊢
            omega)]
        simp only [PR.map]
        rw [string_mk_data, insertMember_not_mem k v ((k2, v2) :: rest2) (by
          intro kv2 hkv2
          rcases List.mem_cons.mp hkv2 with rfl | h
          · exact hknot _ (by simp)
          · exact hknot _ (by simp [h]))]

/-! ## The serialized data shape -/

theorem goodJson_enc (li : LinkItem) : goodJson (encodeLinkItem li) := by
  exact ⟨trivial, by simp, trivial, by simp, trivial, by simp, trivial⟩

theorem goodList_map_enc (L : List LinkItem) : goodList (L.map encodeLinkItem) := by
  induction L with
  | nil => trivial
  | cons li t ih => exact ⟨goodJson_enc li, ih⟩

theorem goodJson_dataJson (T : String) (L : List LinkItem) : goodJson (dataJson T L) := by
  refine ⟨trivial, ?_, goodList_map_enc L, ?_, trivial⟩ <;> simp

theorem eweight_map_enc (L : List LinkItem) :
    eweight (L.map encodeLinkItem) = 8 * L.length := by
  induction L with
  | nil => rfl
  | cons li t ih =>
    simp only [List.map_cons, eweight, encodeLinkItem, jweight, mweight, ih,
      List.length_cons]
    omega

theorem jweight_dataJson (T : String) (L : List LinkItem) :
    jweight (dataJson T L) = 8 * L.length + 5 := by
  simp only [dataJson, jweight, mweight, eweight_map_enc]
  omega

theorem render_enc_ge (ind : Nat) (li : LinkItem) :
    4 ≤ (render ind (encodeLinkItem li)).length := by
  rw [show render ind (encodeLinkItem li)
      = '\x7b' :: '\n' :: (renderMembers (ind + 2) "id" (.str li.id)
          [("label", .str li.label), ("url", .str li.url)]
        ++ '\n' :: (indentSp ind ++ ['\x7d'])) from by simp [render, encodeLinkItem]]
  simp only [List.length_cons, List.length_append]
  omega

theorem renderElems_enc_ge (ind : Nat) (x : LinkItem) (xs : List LinkItem) :
    4 * (1 + xs.length) ≤ (renderElems ind (encodeLinkItem x) (xs.map encodeLinkItem)).length := by
  induction xs generalizing x with
  | nil =>
    rw [show renderElems ind (encodeLinkItem x) ([].map encodeLinkItem)
        = indentSp ind ++ render ind (encodeLinkItem x) from by simp [renderElems]]
    have := render_enc_ge ind x
    simp only [List.length_append, List.length_nil]
    omega
  | cons y ys ih =>
    rw [show renderElems ind (encodeLinkItem x) ((y :: ys).map encodeLinkItem)
        = indentSp ind ++ (render ind (encodeLinkItem x)
          ++ ',' :: '\n' :: renderElems ind (encodeLinkItem y) (ys.map encodeLinkItem))
        from by simp [renderElems]]
    have h1 := render_enc_ge ind x
    have h2 := ih y
    simp only [List.length_append, List.length_cons] at h2 ⊢
    omega

theorem dataJson_render_len (T : String) (L : List LinkItem) :
    4 * L.length + 1 ≤ (render 0 (dataJson T L)).length := by
  match L with
  | [] => simp [dataJson, render, renderMembers]
  | x :: xs =>
    rw [show render 0 (dataJson T (x :: xs))
        = '\x7b' :: '\n' :: (renderMembers 2 "title" (.str T)
            [("items", .arr ((x :: xs).map encodeLinkItem))]
          ++ '\n' :: (indentSp 0 ++ ['\x7d'])) from by simp [render, dataJson]]
    rw [show renderMembers 2 "title" (Json.str T)
          [("items", .arr ((x :: xs).map encodeLinkItem))]
        = indentSp 2 ++ (encStr "title" ++ ':' :: ' ' :: (render 2 (.str T)
          ++ ',' :: '\n' :: renderMembers 2 "items"
            (.arr ((x :: xs).map encodeLinkItem)) [])) from by simp [renderMembers]]
    rw [show renderMembers 2 "items" (Json.arr ((x :: xs).map encodeLinkItem)) []
        = indentSp 2 ++ (encStr "items" ++ ':' :: ' ' ::
          render 2 (.arr ((x :: xs).map encodeLinkItem))) from by simp [renderMembers]]
    rw [show render 2 (Json.arr ((x :: xs).map encodeLinkItem))
        = '[' :: '\n' :: (renderElems 4 (encodeLinkItem x) (xs.map encodeLinkItem)
          ++ '\n' :: (indentSp 2 ++ [']'])) from by simp [render]]
    have := renderElems_enc_ge 4 x xs
    simp only [List.length_cons, List.length_append]
    omega

/-- Parsing the serialized `{title, items}` object recovers it. -/
theorem parse_stringifyData (T : String) (L : List LinkItem) :
    Json.parse (stringifyData T L) = .ok (dataJson T L) := by
  unfold Json.parse
  have hdata : (stringifyData T L).data = render 0 (dataJson T L) := rfl
  have hlen : (stringifyData T L).length = (render 0 (dataJson T L)).length := by
    show (stringifyData T L).data.length = _
    rw [hdata]
  have hfuel : jweight (dataJson T L) ≤ 2 * (stringifyData T L).length + 4 := by
    rw [jweight_dataJson, hlen]
    have := dataJson_render_len T L
    omega
  have h := (parse_render_rt (2 * (stringifyData T L).length + 4)).1 0 (dataJson T L)
    [] [] (by simp) (goodJson_dataJson T L) hfuel
  rw [List.nil_append, List.append_nil] at h
  rw [hdata, h]
  rfl

theorem jsToLinkItem_enc (li : LinkItem) :
    jsToLinkItem (encodeLinkItem li) = li := by
  cases li
  rfl

theorem map_jsToLinkItem_enc (L : List LinkItem) :
    (L.map encodeLinkItem).map jsToLinkItem = L := by
  rw [List.map_map]
  conv_rhs => rw [← List.map_id L]
  exact List.map_congr_left (fun li _ => jsToLinkItem_enc li)

/-! ## Claim C5 -/

/-- What `uploadJson` does with the serialization of any
`{title, items}` state: it parses back, stores the same link list,
raises no alert, and stores the serialized title unless that title is
empty (falsy), in which case `"Untitled List"` takes its place. -/
theorem upload_stringifyData (s2 : AppState) (T : String) (L : List LinkItem) :
    uploadJson s2 (stringifyData T L)
      = some (syncJson { s2 with
          links := L,
          title := if T = "" then "Untitled List" else T }, none) := by
  unfold uploadJson
  rw [parse_stringifyData T L,
    show dataJson T L
      = Json.obj [("title", .str T), ("items", .arr (L.map encodeLinkItem))] from rfl]
  simp only
  rw [show (Json.obj [("title", .str T),
        ("items", .arr (L.map encodeLinkItem))]).getField "items"
      = some (.arr (L.map encodeLinkItem)) from by simp [Json.getField]]
  simp only
  rw [show (Json.obj [("title", .str T),
        ("items", .arr (L.map encodeLinkItem))]).getField "title"
      = some (.str T) from by simp [Json.getField]]
  simp only [jsTruthy, jsToStr, map_jsToLinkItem_enc]
  by_cases hT : T = ""
  · subst hT
    rw [if_neg (by decide), if_pos rfl]
  · rw [if_pos (by simp [hT]), if_neg hT]

/-- C5 (amended): the save/load round trip restores the links and
raises no alert for every title and list, and restores the title
exactly when it is nonempty; `downloadJson`'s payload is the
serialization of `{title, items}`, and for the empty title — falsy in
JavaScript — `uploadJson` substitutes `"Untitled List"` while the
links are still restored. -/
theorem C5_save_load_roundtrip (s s2 : AppState) (T : String) (L : List LinkItem) :
    (downloadJson s).2 = stringifyData s.title s.links
    ∧ (uploadJson s2 (stringifyData T L)).map (fun p => p.1.links) = some L
    ∧ (uploadJson s2 (stringifyData T L)).map (fun p => p.2) = some none
    ∧ (T ≠ "" →
        (uploadJson s2 (stringifyData T L)).map (fun p => p.1.title) = some T)
    ∧ (T = "" →
        (uploadJson s2 (stringifyData T L)).map (fun p => p.1.title)
          = some "Untitled List") := by
  rw [upload_stringifyData s2 T L]
  refine ⟨rfl, by simp [syncJson_links], rfl, ?_, ?_⟩
  · intro hT
    simp [syncJson_title, hT]
  · intro hT
    subst hT
    simp [syncJson_title]

/-- Witness for C5 at a nonempty title and a one-element list. -/
theorem C5_witness :
    (uploadJson initialState
        (stringifyData "My Links" [{ id := "1", label := "G", url := "u" }])).map
      (fun p => p.1.title) = some "My Links"
    ∧ (uploadJson initialState
        (stringifyData "My Links" [{ id := "1", label := "G", url := "u" }])).map
      (fun p => p.1.links) = some [{ id := "1", label := "G", url := "u" }] :=
  ⟨(C5_save_load_roundtrip initialState initialState "My Links"
      [{ id := "1", label := "G", url := "u" }]).2.2.2.1 (by decide),
   (C5_save_load_roundtrip initialState initialState "My Links"
      [{ id := "1", label := "G", url := "u" }]).2.1⟩

/-- Facts about uploading a serialization with the empty title, for
any serialized list: the fallback title appears, yet the links and
the silent success are as for any other title. -/
theorem upload_empty_title_facts (s2 : AppState) (L : List LinkItem) :
    (uploadJson s2 (stringifyData "" L)).map (fun p => p.1.title) = some "Untitled List"
    ∧ (uploadJson s2 (stringifyData "" L)).map (fun p => p.1.links) = some L
    ∧ (uploadJson s2 (stringifyData "" L)).map (fun p => p.2) = some none := by
  rw [upload_stringifyData s2 "" L]
  exact ⟨by simp [syncJson_title], by simp [syncJson_links], rfl⟩

/-- Counterexample to C5 as stated: with the empty title the round
trip does not restore the title — the links come back, but the
serialized `""` is falsy, so `uploadJson` stores `"Untitled List"`
instead of the original empty title. -/
theorem C5_counterexample :
    (uploadJson initialState (stringifyData "" [])).map (fun p => p.1.title)
      = some "Untitled List"
    ∧ (uploadJson initialState (stringifyData "" [])).map (fun p => p.1.links)
      = some []
    ∧ ("Untitled List" : String) ≠ "" :=
  ⟨(upload_empty_title_facts initialState []).1,
   (upload_empty_title_facts initialState []).2.1,
   by decide⟩
